import Mathlib

/-!
Verification development for the win32_timestamps tool (src/main.rs).

The program is embedded shallowly: the Win32 file API that the program
drives is modelled as a deterministic state machine over an association
list of files, following the documented behaviour of CreateFileW,
SetFileTime, GetFileInformationByHandleEx and SetFileInformationByHandle:

* a successful open marks the file for a last-access-time update that is
  committed when the handle is closed, unless SetFileTime was called on
  the handle with the FILETIME sentinel 0xFFFFFFFF/0xFFFFFFFF, which
  suppresses the update for that handle;
* a FILE_BASIC_INFO write treats a timestamp value of 0 or -1 as
  "leave this field unchanged" and a FileAttributes value of 0 as
  "keep the current attributes";
* SetFileTime on a handle that was opened with FILE_WRITE_ATTRIBUTES
  access (both open modes of the program request it) succeeds.

Streams are lists of characters; the functions dump, apply and apply_any
are translated line by line from src/main.rs.
-/

namespace W32

-- ## Win32 data model

structure FILETIME where
  dwLowDateTime : Nat
  dwHighDateTime : Nat
deriving DecidableEq, Repr

structure FILE_BASIC_INFO where
  CreationTime : Int
  LastAccessTime : Int
  LastWriteTime : Int
  ChangeTime : Int
  FileAttributes : Nat
deriving DecidableEq, Repr

/-- Per-file state of the modelled filesystem: the basic info record plus
the access rights the file's ACL denies, whether an information query and
an information write succeed on it, and the OS error code reported when an
operation on it fails. -/
structure FileMeta where
  info : FILE_BASIC_INFO
  denyAccess : Nat
  queryOk : Bool
  setOk : Bool
  errCode : Nat
deriving DecidableEq, Repr

inductive LogEvent where
  | openError (path : String) (code : Nat)
  | setTimeError (path : String) (code : Nat)
  | queryError (path : String) (code : Nat)
  | applyError (path : String) (code : Nat)
  | walkError (msg : String)
  | unknownVersion (v : Int)
deriving DecidableEq, Repr

/-- Whole-system state: the files, the value the OS would stamp as a new
last-access time, the thread's last error code, the diagnostic log, and
the trace of SetFileInformationByHandle calls issued so far. -/
structure Sys where
  files : List (String × FileMeta)
  clock : Int
  lastError : Nat
  log : List LogEvent
  sets : List (String × FILE_BASIC_INFO)
deriving DecidableEq, Repr

structure Handle where
  hpath : String
  suppressAccess : Bool
deriving DecidableEq, Repr

def FILE_READ_ATTRIBUTES : Nat := 128

def FILE_WRITE_ATTRIBUTES : Nat := 256

def ERROR_FILE_NOT_FOUND : Nat := 2

def findFile : List (String × FileMeta) → String → Option FileMeta
  | [], _ => none
  | (k, v) :: rest, p => if k = p then some v else findFile rest p

def updateFile : List (String × FileMeta) → String → (FileMeta → FileMeta) →
    List (String × FileMeta)
  | [], _, _ => []
  | (k, v) :: rest, p, f =>
    if k = p then (k, f v) :: rest else (k, v) :: updateFile rest p f

def updateInfo (s : Sys) (p : String) (f : FILE_BASIC_INFO → FILE_BASIC_INFO) : Sys :=
  { s with files := updateFile s.files p (fun m => { m with info := f m.info }) }

-- ## Win32 API model

def CreateFileW (s : Sys) (path : String) (dwDesiredAccess : Nat) : Option Handle × Sys :=
  match findFile s.files path with
  | none => (none, { s with lastError := ERROR_FILE_NOT_FOUND })
  | some m =>
    if dwDesiredAccess &&& m.denyAccess ≠ 0 then
      (none, { s with lastError := m.errCode })
    else
      (some { hpath := path, suppressAccess := false }, s)

/-- FILETIME { dwLowDateTime: u32::MAX, dwHighDateTime: u32::MAX }: the
documented "leave the last access time unchanged" sentinel. -/
def leaveUnchangedFT : FILETIME :=
  { dwLowDateTime := 4294967295, dwHighDateTime := 4294967295 }

def filetimeToI64 (ft : FILETIME) : Int :=
  let u : Nat := ft.dwLowDateTime % 2 ^ 32 + ft.dwHighDateTime % 2 ^ 32 * 2 ^ 32
  if u < 2 ^ 63 then (u : Int) else (u : Int) - 2 ^ 64

def SetFileTime (s : Sys) (h : Handle) (creation lastAccess lastWrite : Option FILETIME) :
    Bool × Handle × Sys :=
  let s1 := match creation with
    | none => s
    | some ft =>
      if ft = leaveUnchangedFT then s
      else updateInfo s h.hpath (fun i => { i with CreationTime := filetimeToI64 ft })
  let s2 := match lastWrite with
    | none => s1
    | some ft =>
      if ft = leaveUnchangedFT then s1
      else updateInfo s1 h.hpath (fun i => { i with LastWriteTime := filetimeToI64 ft })
  match lastAccess with
  | none => (true, h, s2)
  | some ft =>
    if ft = leaveUnchangedFT then (true, { h with suppressAccess := true }, s2)
    else (true, h, updateInfo s2 h.hpath (fun i => { i with LastAccessTime := filetimeToI64 ft }))

def CloseHandle (s : Sys) (h : Handle) : Sys :=
  if h.suppressAccess then s
  else updateInfo s h.hpath (fun i => { i with LastAccessTime := s.clock })

def GetFileInformationByHandleEx (s : Sys) (h : Handle) : Option FILE_BASIC_INFO × Sys :=
  match findFile s.files h.hpath with
  | none => (none, { s with lastError := ERROR_FILE_NOT_FOUND })
  | some m =>
    if m.queryOk then (some m.info, s) else (none, { s with lastError := m.errCode })

/-- Documented FILE_BASIC_INFO write semantics: a time value of 0 or -1
leaves the corresponding field unchanged, a FileAttributes value of 0
keeps the current attributes. -/
def applyBasicInfo (old fi : FILE_BASIC_INFO) : FILE_BASIC_INFO :=
  { CreationTime :=
      if fi.CreationTime = 0 ∨ fi.CreationTime = -1 then old.CreationTime else fi.CreationTime
    LastAccessTime :=
      if fi.LastAccessTime = 0 ∨ fi.LastAccessTime = -1 then old.LastAccessTime
      else fi.LastAccessTime
    LastWriteTime :=
      if fi.LastWriteTime = 0 ∨ fi.LastWriteTime = -1 then old.LastWriteTime
      else fi.LastWriteTime
    ChangeTime :=
      if fi.ChangeTime = 0 ∨ fi.ChangeTime = -1 then old.ChangeTime else fi.ChangeTime
    FileAttributes :=
      if fi.FileAttributes = 0 then old.FileAttributes else fi.FileAttributes }

def SetFileInformationByHandle (s : Sys) (h : Handle) (fi : FILE_BASIC_INFO) : Bool × Sys :=
  let s0 := { s with sets := s.sets ++ [(h.hpath, fi)] }
  match findFile s0.files h.hpath with
  | none => (false, { s0 with lastError := ERROR_FILE_NOT_FOUND })
  | some m =>
    if m.setOk then
      (true, updateInfo s0 h.hpath (fun i => applyBasicInfo i fi))
    else (false, { s0 with lastError := m.errCode })

-- ## Shared Win32 wrappers (src/main.rs)

inductive Win32OpenMode where
  | Read
  | Write
deriving DecidableEq, Repr

/-- Access rights requested per open mode, as in win32_open_file:
Read asks for FILE_READ_ATTRIBUTES | FILE_WRITE_ATTRIBUTES (the latter is
needed to retain the last access time via SetFileTime), Write for
FILE_WRITE_ATTRIBUTES only. -/
def accessOf : Win32OpenMode → Nat
  | Win32OpenMode.Read => FILE_READ_ATTRIBUTES ||| FILE_WRITE_ATTRIBUTES
  | Win32OpenMode.Write => FILE_WRITE_ATTRIBUTES

def win32_open_file (s : Sys) (path : String) (mode : Win32OpenMode) : Option Handle × Sys :=
  match CreateFileW s path (accessOf mode) with
  | (none, s1) => (none, { s1 with log := s1.log ++ [LogEvent.openError path s1.lastError] })
  | (some h, s1) =>
    match SetFileTime s1 h none (some leaveUnchangedFT) none with
    | (ok, h1, s2) =>
      if ok then (some h1, s2)
      else (some h1, { s2 with log := s2.log ++ [LogEvent.setTimeError path s2.lastError] })

def get_file_basic_info (s : Sys) (path : String) : Option FILE_BASIC_INFO × Sys :=
  match win32_open_file s path Win32OpenMode.Read with
  | (none, s1) => (none, s1)
  | (some h, s1) =>
    match GetFileInformationByHandleEx s1 h with
    | (r, s2) =>
      let s3 := CloseHandle s2 h
      match r with
      | none => (none, { s3 with log := s3.log ++ [LogEvent.queryError path s3.lastError] })
      | some fi => (some fi, s3)

def set_file_basic_info (s : Sys) (path : String) (fi : FILE_BASIC_INFO) : Sys :=
  match win32_open_file s path Win32OpenMode.Write with
  | (none, s1) => s1
  | (some h, s1) =>
    match SetFileInformationByHandle s1 h fi with
    | (ok, s2) =>
      let s3 := CloseHandle s2 h
      if ok then s3 else { s3 with log := s3.log ++ [LogEvent.applyError path s3.lastError] }

-- ## Decimal integer serialization (i64 Display / FromStr)

/-- Little-endian base-10 digit list of n, with explicit fuel to keep the
recursion structural. -/
def natDigitsAux : Nat → Nat → List Nat
  | 0, _ => []
  | fuel + 1, n => if n = 0 then [] else n % 10 :: natDigitsAux fuel (n / 10)

def natChars (n : Nat) : List Char :=
  if n = 0 then ['0']
  else ((natDigitsAux n n).reverse.map (fun d => Char.ofNat (48 + d)))

/-- Rust i64 Display: optional minus sign followed by decimal digits. -/
def intChars (v : Int) : List Char :=
  if v < 0 then '-' :: natChars v.natAbs else natChars v.toNat

def isDigitChar (c : Char) : Bool := 48 ≤ c.toNat && c.toNat ≤ 57

def parseNatChars (cs : List Char) : Option Nat :=
  if cs ≠ [] ∧ cs.all isDigitChar then
    some (Nat.ofDigits 10 ((cs.map (fun c => c.toNat - 48)).reverse))
  else none

/-- Rust integer FromStr: optional sign, then at least one digit and
nothing else. -/
def parseIntChars (cs : List Char) : Option Int :=
  match cs with
  | [] => none
  | c :: rest =>
    if c = '-' then (parseNatChars rest).map (fun n => -(n : Int))
    else if c = '+' then (parseNatChars rest).map (fun n => (n : Int))
    else (parseNatChars (c :: rest)).map (fun n => (n : Int))

def i64R (v : Int) : Prop := -(2 ^ 63) ≤ v ∧ v < 2 ^ 63

def i32R (v : Int) : Prop := -(2 ^ 31) ≤ v ∧ v < 2 ^ 31

instance (v : Int) : Decidable (i64R v) := instDecidableAnd

instance (v : Int) : Decidable (i32R v) := instDecidableAnd

def parseI64 (cs : List Char) : Option Int :=
  (parseIntChars cs).bind (fun v => if i64R v then some v else none)

def parseI32 (cs : List Char) : Option Int :=
  (parseIntChars cs).bind (fun v => if i32R v then some v else none)

-- ## V0Timestamps (src/main.rs)

structure V0Timestamps where
  created : Int
  modified : Int
  changed : Int
  accessed : Int
deriving DecidableEq, Repr

def V0Timestamps.version : Int := 0

def V0Timestamps.header : String := "Created\tModified\tChanged\tAccessed"

def tsOf (i : FILE_BASIC_INFO) : V0Timestamps :=
  { created := i.CreationTime, modified := i.LastWriteTime,
    accessed := i.LastAccessTime, changed := i.ChangeTime }

def V0Timestamps.get (s : Sys) (path : String) : Option V0Timestamps × Sys :=
  match get_file_basic_info s path with
  | (none, s1) => (none, s1)
  | (some fi, s1) => (some (tsOf fi), s1)

/-- FILE_BASIC_INFO record built by V0Timestamps::set: the four times from
the record and FileAttributes 0, which keeps the original attributes. -/
def fiOf (ts : V0Timestamps) : FILE_BASIC_INFO :=
  { CreationTime := ts.created, LastAccessTime := ts.accessed,
    LastWriteTime := ts.modified, ChangeTime := ts.changed, FileAttributes := 0 }

def V0Timestamps.set (s : Sys) (path : String) (ts : V0Timestamps) : Sys :=
  set_file_basic_info s path (fiOf ts)

/-- parse_display Display format "{created}\t{modified}\t{changed}\t{accessed}". -/
def v0Display (ts : V0Timestamps) : List Char :=
  intChars ts.created ++ '\t' ::
    (intChars ts.modified ++ '\t' :: (intChars ts.changed ++ '\t' :: intChars ts.accessed))

def splitOnChar (sep : Char) : List Char → List (List Char)
  | [] => [[]]
  | c :: rest =>
    match splitOnChar sep rest with
    | [] => [[]]
    | g :: gs => if c = sep then [] :: g :: gs else (c :: g) :: gs

/-- Combine the four parsed fields of a version-0 row; any parse failure
fails the row. -/
def v0FromFields : Option Int → Option Int → Option Int → Option Int → Option V0Timestamps
  | some x1, some x2, some x3, some x4 =>
    some { created := x1, modified := x2, changed := x3, accessed := x4 }
  | _, _, _, _ => none

/-- parse_display FromStr for V0Timestamps: exactly four tab-separated
fields, each parsing as an i64. -/
def v0FromStr (cs : List Char) : Option V0Timestamps :=
  match splitOnChar '\t' cs with
  | [a, b, c, d] => v0FromFields (parseI64 a) (parseI64 b) (parseI64 c) (parseI64 d)
  | _ => none

-- ## Text stream plumbing

/-- str::split_once: split at the first occurrence of sep, none when sep
does not occur. -/
def splitOnce (sep : Char) : List Char → Option (List Char × List Char)
  | [] => none
  | c :: rest =>
    if c = sep then some ([], rest)
    else (splitOnce sep rest).map (fun pr => (c :: pr.1, pr.2))

def stripCr (l : List Char) : List Char :=
  if l.getLast? = some '\r' then l.dropLast else l

/-- BufRead::lines: chunks separated by a line feed, a carriage return
before the line feed stripped, no empty chunk after a trailing line
feed. -/
def myLinesAux : List Char → List Char → List (List Char)
  | acc, [] => if acc.isEmpty then [] else [acc.reverse]
  | acc, c :: rest =>
    if c = '\n' then stripCr acc.reverse :: myLinesAux [] rest
    else myLinesAux (c :: acc) rest

def myLines (cs : List Char) : List (List Char) := myLinesAux [] cs

/-- println output of a line sequence: every line followed by a line
feed. -/
def render : List (List Char) → List Char
  | [] => []
  | l :: ls => l ++ '\n' :: render ls

-- ## Top-level functions (src/main.rs)

/-- jwalk traversal item: a path, or a traversal error that dump logs and
skips. -/
inductive WalkEntry where
  | ok (path : String)
  | error (msg : String)
deriving DecidableEq, Repr

def HEADER_PREFIX : String := "Version "

def column_header : List Char := ("Path\t" ++ V0Timestamps.header).data

def dumpLoop (s : Sys) : List WalkEntry → List (List Char) × Sys
  | [] => ([], s)
  | WalkEntry.error msg :: rest =>
    dumpLoop { s with log := s.log ++ [LogEvent.walkError msg] } rest
  | WalkEntry.ok p :: rest =>
    match (V0Timestamps.get s p).1 with
    | none => dumpLoop (V0Timestamps.get s p).2 rest
    | some ts =>
      ((p.data ++ '\t' :: v0Display ts) :: (dumpLoop (V0Timestamps.get s p).2 rest).1,
        (dumpLoop (V0Timestamps.get s p).2 rest).2)

def dump (s : Sys) (entries : List WalkEntry) : List (List Char) × Sys :=
  match dumpLoop s entries with
  | (ls, s1) =>
    (( HEADER_PREFIX.data ++ intChars V0Timestamps.version) :: column_header :: ls, s1)

/-- Panics of apply / apply_any, each of which aborts the whole run. -/
inductive AbortKind where
  | streamTooShort
  | badMagic
  | missingVersionLine
  | badVersionNumber
  | missingHeaderLine
  | headerMismatch
  | missingTab
  | fieldParseError
deriving DecidableEq, Repr

def applyLoop (s : Sys) : List (List Char) → Except AbortKind Unit × Sys
  | [] => (Except.ok (), s)
  | line :: rest =>
    match splitOnce '\t' line with
    | none => (Except.error AbortKind.missingTab, s)
    | some (pathChars, payload) =>
      match v0FromStr payload with
      | none => (Except.error AbortKind.fieldParseError, s)
      | some ts => applyLoop (V0Timestamps.set s (String.mk pathChars) ts) rest

def apply (s : Sys) (lines : List (List Char)) : Except AbortKind Unit × Sys :=
  match lines with
  | [] => (Except.error AbortKind.missingHeaderLine, s)
  | l :: rest =>
    if l = column_header then applyLoop s rest
    else (Except.error AbortKind.headerMismatch, s)

def apply_any (s : Sys) (input : List Char) : Except AbortKind Unit × Sys :=
  let pfx := HEADER_PREFIX.data
  if input.length < pfx.length then (Except.error AbortKind.streamTooShort, s)
  else if input.take pfx.length ≠ pfx then (Except.error AbortKind.badMagic, s)
  else
    match myLines (input.drop pfx.length) with
    | [] => (Except.error AbortKind.missingVersionLine, s)
    | vline :: rest =>
      match parseI32 vline with
      | none => (Except.error AbortKind.badVersionNumber, s)
      | some v =>
        if v = 0 then apply s rest
        else (Except.ok (), { s with log := s.log ++ [LogEvent.unknownVersion v] })

/-- Modelled from the spec: the traversal driver of section 4.5 is
external to src/ (the jwalk crate); per the empty-tree property of
section 8 it yields the empty sequence of filesystem entries for a
directory containing no entries. -/
def emptyDirTraversal : List WalkEntry := []

-- ## Range predicates

def tsRange (ts : V0Timestamps) : Prop :=
  i64R ts.created ∧ i64R ts.modified ∧ i64R ts.changed ∧ i64R ts.accessed

def infoRange (i : FILE_BASIC_INFO) : Prop := tsRange (tsOf i)

instance (ts : V0Timestamps) : Decidable (tsRange ts) := by
  unfold tsRange; infer_instance

instance (i : FILE_BASIC_INFO) : Decidable (infoRange i) := by
  unfold infoRange; infer_instance

-- ## Decimal print/parse round trip

theorem char_ofNat_digit_toNat {d : Nat} (hd : d < 10) :
    (Char.ofNat (48 + d)).toNat = 48 + d := by
  interval_cases d <;> decide

theorem isDigitChar_ofNat {d : Nat} (hd : d < 10) :
    isDigitChar (Char.ofNat (48 + d)) = true := by
  interval_cases d <;> decide

theorem natDigitsAux_lt10 : ∀ (fuel n : Nat), ∀ d ∈ natDigitsAux fuel n, d < 10 := by
  intro fuel
  induction fuel with
  | zero => intro n d hd; simp [natDigitsAux] at hd
  | succ fuel ih =>
    intro n d hd
    by_cases hn : n = 0
    · simp [natDigitsAux, hn] at hd
    · simp only [natDigitsAux, if_neg hn, List.mem_cons] at hd
      rcases hd with h | h
      · exact h ▸ Nat.mod_lt _ (by norm_num)
      · exact ih _ _ h

theorem ofDigits_natDigitsAux : ∀ (fuel n : Nat), n ≤ fuel →
    Nat.ofDigits 10 (natDigitsAux fuel n) = n := by
  intro fuel
  induction fuel with
  | zero =>
    intro n hn
    interval_cases n
    simp [natDigitsAux, Nat.ofDigits]
  | succ fuel ih =>
    intro n hn
    by_cases h0 : n = 0
    · simp [natDigitsAux, h0, Nat.ofDigits]
    · have hdiv : n / 10 ≤ fuel := by
        have h1 : n / 10 < n := Nat.div_lt_self (Nat.pos_of_ne_zero h0) (by norm_num)
        omega
      rw [natDigitsAux, if_neg h0, Nat.ofDigits_cons, ih _ hdiv]
      omega

theorem natChars_digits (n : Nat) : ∀ c ∈ natChars n, isDigitChar c = true := by
  intro c hc
  by_cases h0 : n = 0
  · simp [natChars, h0] at hc
    subst hc
    decide
  · simp only [natChars, if_neg h0, List.mem_map, List.mem_reverse] at hc
    obtain ⟨d, hd, rfl⟩ := hc
    exact isDigitChar_ofNat (natDigitsAux_lt10 _ _ _ hd)

theorem natChars_ne_nil (n : Nat) : natChars n ≠ [] := by
  by_cases h0 : n = 0
  · simp [natChars, h0]
  · obtain ⟨m, rfl⟩ := Nat.exists_eq_succ_of_ne_zero h0
    simp [natChars, natDigitsAux]

theorem parseNatChars_natChars (n : Nat) : parseNatChars (natChars n) = some n := by
  have hall : natChars n ≠ [] ∧ (natChars n).all isDigitChar := by
    refine ⟨natChars_ne_nil n, ?_⟩
    rw [List.all_eq_true]
    intro c hc
    exact natChars_digits n c hc
  rw [parseNatChars, if_pos hall]
  by_cases h0 : n = 0
  · subst h0; decide
  · have hmap : (natChars n).map (fun c => c.toNat - 48) = (natDigitsAux n n).reverse := by
      rw [natChars, if_neg h0, List.map_map]
      have heq : ∀ d ∈ (natDigitsAux n n).reverse,
          ((fun c => c.toNat - 48) ∘ fun d => Char.ofNat (48 + d)) d = id d := by
        intro d hd
        have hlt : d < 10 := natDigitsAux_lt10 _ _ _ (List.mem_reverse.mp hd)
        simp [char_ofNat_digit_toNat hlt]
      rw [List.map_congr_left heq, List.map_id]
    rw [hmap, List.reverse_reverse, ofDigits_natDigitsAux n n (le_refl n)]

theorem natChars_head_digit (n : Nat) :
    ∃ c cs, natChars n = c :: cs ∧ isDigitChar c = true := by
  obtain ⟨c, cs, h⟩ : ∃ c cs, natChars n = c :: cs := by
    cases h : natChars n with
    | nil => exact absurd h (natChars_ne_nil n)
    | cons c cs => exact ⟨c, cs, rfl⟩
  exact ⟨c, cs, h, natChars_digits n c (h ▸ List.mem_cons_self c cs)⟩

theorem digitChar_ne {c : Char} (h : isDigitChar c = true) :
    c ≠ '-' ∧ c ≠ '+' ∧ c ≠ '\t' ∧ c ≠ '\n' ∧ c ≠ '\r' := by
  refine ⟨?_, ?_, ?_, ?_, ?_⟩ <;>
    (intro hc; subst hc; exact absurd h (by decide))

theorem parseIntChars_intChars (v : Int) : parseIntChars (intChars v) = some v := by
  by_cases hv : v < 0
  · rw [intChars, if_pos hv, parseIntChars]
    rw [if_pos rfl, parseNatChars_natChars]
    show some (-(v.natAbs : Int)) = some v
    congr 1
    omega
  · rw [intChars, if_neg hv]
    obtain ⟨c, cs, hc, hdig⟩ := natChars_head_digit v.toNat
    obtain ⟨h1, h2, _, _, _⟩ := digitChar_ne hdig
    rw [hc, parseIntChars, if_neg h1, if_neg h2, ← hc, parseNatChars_natChars]
    show some ((v.toNat : Int)) = some v
    congr 1
    omega

theorem parseI64_intChars {v : Int} (hv : i64R v) : parseI64 (intChars v) = some v := by
  rw [parseI64, parseIntChars_intChars]
  simp [hv]

theorem parseI32_intChars {v : Int} (hv : i32R v) : parseI32 (intChars v) = some v := by
  rw [parseI32, parseIntChars_intChars]
  simp [hv]

theorem mem_intChars {v : Int} {c : Char} (hc : c ∈ intChars v) :
    c = '-' ∨ isDigitChar c = true := by
  rw [intChars] at hc
  by_cases hv : v < 0
  · rw [if_pos hv] at hc
    rcases List.mem_cons.mp hc with h | h
    · exact Or.inl h
    · exact Or.inr (natChars_digits _ _ h)
  · rw [if_neg hv] at hc
    exact Or.inr (natChars_digits _ _ hc)

theorem tab_not_mem_intChars (v : Int) : '\t' ∉ intChars v := by
  intro h
  rcases mem_intChars h with h | h
  · exact absurd h (by decide)
  · exact absurd h (by decide)

theorem lf_not_mem_intChars (v : Int) : '\n' ∉ intChars v := by
  intro h
  rcases mem_intChars h with h | h
  · exact absurd h (by decide)
  · exact absurd h (by decide)

theorem natChars_getLast_digit (n : Nat) :
    ∃ c, (natChars n).getLast? = some c ∧ isDigitChar c = true := by
  have hne := natChars_ne_nil n
  exact ⟨(natChars n).getLast hne, List.getLast?_eq_getLast _ hne,
    natChars_digits n _ (List.getLast_mem hne)⟩

theorem intChars_getLast_digit (v : Int) :
    ∃ c, (intChars v).getLast? = some c ∧ isDigitChar c = true := by
  rw [intChars]
  by_cases hv : v < 0
  · rw [if_pos hv]
    obtain ⟨c, hc, hd⟩ := natChars_getLast_digit v.natAbs
    refine ⟨c, ?_, hd⟩
    have : '-' :: natChars v.natAbs = ['-'] ++ natChars v.natAbs := rfl
    rw [this, List.getLast?_append_of_ne_nil _ (natChars_ne_nil _), hc]
  · rw [if_neg hv]
    exact natChars_getLast_digit v.toNat

theorem stripCr_of_getLast_digit {l : List Char} {c : Char}
    (h : l.getLast? = some c) (hd : isDigitChar c = true) : stripCr l = l := by
  rw [stripCr, if_neg]
  rw [h]
  intro hc
  have hcc : c = '\r' := by injection hc
  subst hcc
  exact absurd hd (by decide)

-- ## Splitting and joining lemmas

theorem splitOnChar_ne_nil (sep : Char) (cs : List Char) : splitOnChar sep cs ≠ [] := by
  cases cs with
  | nil => simp [splitOnChar]
  | cons c rest =>
    rw [splitOnChar]
    cases h : splitOnChar sep rest with
    | nil => simp
    | cons g gs => by_cases hc : c = sep <;> simp [hc]

theorem splitOnChar_nosep (sep : Char) :
    ∀ cs : List Char, sep ∉ cs → splitOnChar sep cs = [cs] := by
  intro cs
  induction cs with
  | nil => intro _; rfl
  | cons c rest ih =>
    intro h
    have hc : c ≠ sep := fun hc => h (hc ▸ List.mem_cons_self c rest)
    rw [splitOnChar, ih (fun hm => h (List.mem_cons_of_mem c hm))]
    simp [hc]

theorem splitOnChar_append (sep : Char) :
    ∀ (l r : List Char), sep ∉ l →
      splitOnChar sep (l ++ sep :: r) = l :: splitOnChar sep r := by
  intro l
  induction l with
  | nil =>
    intro r _
    rw [List.nil_append, splitOnChar]
    cases h : splitOnChar sep r with
    | nil => exact absurd h (splitOnChar_ne_nil sep r)
    | cons g gs => simp
  | cons c l ih =>
    intro r h
    have hc : c ≠ sep := fun hc => h (hc ▸ List.mem_cons_self c l)
    rw [List.cons_append, splitOnChar, ih r (fun hm => h (List.mem_cons_of_mem c hm))]
    simp [hc]

def joinSep (sep : Char) : List (List Char) → List Char
  | [] => []
  | [l] => l
  | l :: ls => l ++ sep :: joinSep sep ls

theorem joinSep_splitOnChar (sep : Char) : ∀ cs, joinSep sep (splitOnChar sep cs) = cs := by
  intro cs
  induction cs with
  | nil => rfl
  | cons c rest ih =>
    cases h : splitOnChar sep rest with
    | nil => exact absurd h (splitOnChar_ne_nil sep rest)
    | cons g gs =>
      rw [h] at ih
      simp only [splitOnChar, h]
      by_cases hc : c = sep
      · subst hc
        rw [if_pos rfl]
        show ([] : List Char) ++ c :: joinSep c (g :: gs) = c :: rest
        rw [List.nil_append, ih]
      · rw [if_neg hc]
        cases gs with
        | nil =>
          have ihg : g = rest := ih
          show (c :: g : List Char) = c :: rest
          rw [ihg]
        | cons g2 gs2 =>
          have ihg : g ++ sep :: joinSep sep (g2 :: gs2) = rest := ih
          show (c :: g) ++ sep :: joinSep sep (g2 :: gs2) = c :: rest
          rw [List.cons_append, ihg]

theorem splitOnce_nosep (sep : Char) :
    ∀ cs : List Char, sep ∉ cs → splitOnce sep cs = none := by
  intro cs
  induction cs with
  | nil => intro _; rfl
  | cons c rest ih =>
    intro h
    have hc : c ≠ sep := fun hc => h (hc ▸ List.mem_cons_self c rest)
    rw [splitOnce, if_neg hc, ih (fun hm => h (List.mem_cons_of_mem c hm))]
    rfl

theorem splitOnce_append (sep : Char) :
    ∀ (l r : List Char), sep ∉ l → splitOnce sep (l ++ sep :: r) = some (l, r) := by
  intro l
  induction l with
  | nil => intro r _; rw [List.nil_append, splitOnce, if_pos rfl]
  | cons c l ih =>
    intro r h
    have hc : c ≠ sep := fun hc => h (hc ▸ List.mem_cons_self c l)
    rw [List.cons_append, splitOnce, if_neg hc, ih r (fun hm => h (List.mem_cons_of_mem c hm))]
    rfl

theorem splitOnce_eq_some (sep : Char) :
    ∀ (cs x y : List Char), splitOnce sep cs = some (x, y) →
      cs = x ++ sep :: y ∧ sep ∉ x := by
  intro cs
  induction cs with
  | nil => intro x y h; exact absurd h (by simp [splitOnce])
  | cons c rest ih =>
    intro x y h
    rw [splitOnce] at h
    by_cases hc : c = sep
    · rw [if_pos hc] at h
      obtain ⟨h1, h2⟩ : [] = x ∧ rest = y := by
        injection h with h2
        injection h2 with h3 h4
        exact ⟨h3, h4⟩
      subst h1
      subst h2
      subst hc
      exact ⟨rfl, by simp⟩
    · rw [if_neg hc] at h
      cases hsp : splitOnce sep rest with
      | none => rw [hsp] at h; exact absurd h (by simp)
      | some pr =>
        obtain ⟨p1, p2⟩ := pr
        rw [hsp] at h
        have hsome : some (c :: p1, p2) = some (x, y) := h
        obtain ⟨h1, h2⟩ : c :: p1 = x ∧ p2 = y := by
          injection hsome with h2
          injection h2 with h3 h4
          exact ⟨h3, h4⟩
        subst h1
        subst h2
        obtain ⟨he, hn⟩ := ih p1 p2 hsp
        refine ⟨by rw [he]; rfl, ?_⟩
        intro hm
        rcases List.mem_cons.mp hm with h1 | h1
        · exact hc h1.symm
        · exact hn h1

-- ## Line splitting lemmas

theorem myLinesAux_line :
    ∀ (l acc rest : List Char), '\n' ∉ l →
      myLinesAux acc (l ++ '\n' :: rest) =
        stripCr (acc.reverse ++ l) :: myLinesAux [] rest := by
  intro l
  induction l with
  | nil =>
    intro acc rest _
    rw [List.nil_append, myLinesAux, if_pos rfl, List.append_nil]
  | cons c l ih =>
    intro acc rest h
    have hc : c ≠ '\n' := fun hc => h (hc ▸ List.mem_cons_self c l)
    rw [List.cons_append, myLinesAux, if_neg hc,
      ih (c :: acc) rest (fun hm => h (List.mem_cons_of_mem c hm))]
    congr 2
    rw [List.reverse_cons, List.append_assoc]
    rfl

theorem myLines_render :
    ∀ ls : List (List Char), (∀ l ∈ ls, '\n' ∉ l ∧ stripCr l = l) →
      myLines (render ls) = ls := by
  intro ls
  induction ls with
  | nil => intro _; rfl
  | cons l ls ih =>
    intro h
    obtain ⟨h1, h2⟩ := h l (List.mem_cons_self l ls)
    rw [render, myLines, myLinesAux_line l [] (render ls) h1]
    rw [List.reverse_nil, List.nil_append, h2]
    rw [show myLinesAux [] (render ls) = myLines (render ls) from rfl,
      ih (fun x hx => h x (List.mem_cons_of_mem l hx))]

-- ## Association list lemmas

theorem findFile_some_mem : ∀ (l : List (String × FileMeta)) (p : String) (m : FileMeta),
    findFile l p = some m → (p, m) ∈ l := by
  intro l
  induction l with
  | nil => intro p m h; exact absurd h (by simp [findFile])
  | cons kv rest ih =>
    intro p m h
    obtain ⟨k, v⟩ := kv
    rw [findFile] at h
    by_cases hk : k = p
    · rw [if_pos hk] at h
      have hv : v = m := by injection h
      subst hv
      subst hk
      exact List.mem_cons_self _ _
    · rw [if_neg hk] at h
      exact List.mem_cons_of_mem _ (ih p m h)

theorem findFile_updateFile_self : ∀ (l : List (String × FileMeta)) (p : String)
    (f : FileMeta → FileMeta),
    findFile (updateFile l p f) p = (findFile l p).map f := by
  intro l
  induction l with
  | nil => intro p f; rfl
  | cons kv rest ih =>
    intro p f
    obtain ⟨k, v⟩ := kv
    by_cases hk : k = p
    · rw [updateFile, if_pos hk, findFile, if_pos hk, findFile, if_pos hk]
      rfl
    · rw [updateFile, if_neg hk, findFile, if_neg hk, findFile, if_neg hk, ih]

theorem findFile_updateFile_other : ∀ (l : List (String × FileMeta)) (p q : String)
    (f : FileMeta → FileMeta), q ≠ p →
    findFile (updateFile l p f) q = findFile l q := by
  intro l
  induction l with
  | nil => intro p q f _; rfl
  | cons kv rest ih =>
    intro p q f hqp
    obtain ⟨k, v⟩ := kv
    by_cases hk : k = p
    · have hkq : k ≠ q := by
        intro h
        apply hqp
        rw [← h, hk]
      rw [updateFile, if_pos hk, findFile, if_neg hkq, findFile, if_neg hkq]
    · by_cases hkq : k = q
      · rw [updateFile, if_neg hk, findFile, if_pos hkq, findFile, if_pos hkq]
      · rw [updateFile, if_neg hk, findFile, if_neg hkq, findFile, if_neg hkq, ih _ _ _ hqp]

theorem updateFile_self_id : ∀ (l : List (String × FileMeta)) (p : String)
    (f : FileMeta → FileMeta),
    (∀ m, findFile l p = some m → f m = m) → updateFile l p f = l := by
  intro l
  induction l with
  | nil => intro p f _; rfl
  | cons kv rest ih =>
    intro p f h
    obtain ⟨k, v⟩ := kv
    by_cases hk : k = p
    · rw [updateFile, if_pos hk]
      rw [h v (by rw [findFile, if_pos hk])]
    · rw [updateFile, if_neg hk]
      rw [ih p f (fun m hm => h m (by rw [findFile, if_neg hk]; exact hm))]

-- ## CreateFileW and win32_open_file characterization

theorem createFileW_none {s : Sys} {p : String} {a : Nat}
    (hm : findFile s.files p = none) :
    CreateFileW s p a = (none, { s with lastError := ERROR_FILE_NOT_FOUND }) := by
  simp only [CreateFileW, hm]

theorem createFileW_denied {s : Sys} {p : String} {m : FileMeta} {a : Nat}
    (hm : findFile s.files p = some m) (ha : a &&& m.denyAccess ≠ 0) :
    CreateFileW s p a = (none, { s with lastError := m.errCode }) := by
  simp only [CreateFileW, hm]
  rw [if_pos ha]

theorem createFileW_some {s : Sys} {p : String} {m : FileMeta} {a : Nat}
    (hm : findFile s.files p = some m) (ha : a &&& m.denyAccess = 0) :
    CreateFileW s p a = (some { hpath := p, suppressAccess := false }, s) := by
  simp only [CreateFileW, hm]
  rw [if_neg (by simp [ha])]

theorem win32_open_file_ok {s : Sys} {p : String} {m : FileMeta} {mode : Win32OpenMode}
    (hm : findFile s.files p = some m) (ha : accessOf mode &&& m.denyAccess = 0) :
    win32_open_file s p mode = (some { hpath := p, suppressAccess := true }, s) := by
  simp only [win32_open_file, createFileW_some hm ha, SetFileTime]
  simp

theorem win32_open_file_notFound {s : Sys} {p : String} {mode : Win32OpenMode}
    (hm : findFile s.files p = none) :
    win32_open_file s p mode =
      (none, { s with lastError := ERROR_FILE_NOT_FOUND,
                      log := s.log ++ [LogEvent.openError p ERROR_FILE_NOT_FOUND] }) := by
  simp only [win32_open_file, createFileW_none hm]

theorem win32_open_file_denied {s : Sys} {p : String} {m : FileMeta} {mode : Win32OpenMode}
    (hm : findFile s.files p = some m) (ha : accessOf mode &&& m.denyAccess ≠ 0) :
    win32_open_file s p mode =
      (none, { s with lastError := m.errCode,
                      log := s.log ++ [LogEvent.openError p m.errCode] }) := by
  simp only [win32_open_file, createFileW_denied hm ha]

-- ## V0Timestamps.get characterization

/-- Result of a get as a function of the file table alone. -/
def getResult (files : List (String × FileMeta)) (p : String) : Option V0Timestamps :=
  match findFile files p with
  | none => none
  | some m =>
    if accessOf Win32OpenMode.Read &&& m.denyAccess ≠ 0 then none
    else if m.queryOk then some (tsOf m.info) else none

theorem get_fst (s : Sys) (p : String) :
    (V0Timestamps.get s p).1 = getResult s.files p := by
  cases hm : findFile s.files p with
  | none =>
    simp only [V0Timestamps.get, get_file_basic_info, win32_open_file_notFound hm,
      getResult, hm]
  | some m =>
    by_cases ha : accessOf Win32OpenMode.Read &&& m.denyAccess ≠ 0
    · simp only [V0Timestamps.get, get_file_basic_info, win32_open_file_denied hm ha,
        getResult, hm, if_pos ha]
    · have ha0 : accessOf Win32OpenMode.Read &&& m.denyAccess = 0 := by omega
      simp only [V0Timestamps.get, get_file_basic_info, win32_open_file_ok hm ha0,
        GetFileInformationByHandleEx, getResult, hm, if_neg ha]
      cases hq : m.queryOk with
      | false => simp [CloseHandle]
      | true => simp [CloseHandle]

theorem get_snd (s : Sys) (p : String) :
    (V0Timestamps.get s p).2.files = s.files ∧
    (V0Timestamps.get s p).2.clock = s.clock ∧
    (V0Timestamps.get s p).2.sets = s.sets := by
  cases hm : findFile s.files p with
  | none =>
    simp [V0Timestamps.get, get_file_basic_info, win32_open_file_notFound hm]
  | some m =>
    by_cases ha : accessOf Win32OpenMode.Read &&& m.denyAccess ≠ 0
    · simp [V0Timestamps.get, get_file_basic_info, win32_open_file_denied hm ha]
    · have ha0 : accessOf Win32OpenMode.Read &&& m.denyAccess = 0 := by omega
      simp only [V0Timestamps.get, get_file_basic_info, win32_open_file_ok hm ha0,
        GetFileInformationByHandleEx, hm]
      cases hq : m.queryOk with
      | false => simp [CloseHandle]
      | true => simp [CloseHandle]

-- ## set characterization

/-- File table after a set_file_basic_info, as a function of the old
table. -/
def setFilesResult (files : List (String × FileMeta)) (p : String) (fi : FILE_BASIC_INFO) :
    List (String × FileMeta) :=
  match findFile files p with
  | none => files
  | some m =>
    if accessOf Win32OpenMode.Write &&& m.denyAccess ≠ 0 then files
    else if m.setOk then
      updateFile files p (fun mm => { mm with info := applyBasicInfo mm.info fi })
    else files

theorem set_files (s : Sys) (p : String) (fi : FILE_BASIC_INFO) :
    (set_file_basic_info s p fi).files = setFilesResult s.files p fi := by
  cases hm : findFile s.files p with
  | none =>
    simp only [set_file_basic_info, win32_open_file_notFound hm, setFilesResult, hm]
  | some m =>
    by_cases ha : accessOf Win32OpenMode.Write &&& m.denyAccess ≠ 0
    · simp only [set_file_basic_info, win32_open_file_denied hm ha, setFilesResult, hm,
        if_pos ha]
    · have ha0 : accessOf Win32OpenMode.Write &&& m.denyAccess = 0 := by omega
      simp only [set_file_basic_info, win32_open_file_ok hm ha0,
        SetFileInformationByHandle, setFilesResult, hm, if_neg ha]
      cases hq : m.setOk with
      | false => simp [CloseHandle]
      | true => simp [CloseHandle, updateInfo]

theorem set_sets_open_ok {s : Sys} {p : String} {m : FileMeta} (fi : FILE_BASIC_INFO)
    (hm : findFile s.files p = some m)
    (ha : accessOf Win32OpenMode.Write &&& m.denyAccess = 0) :
    (set_file_basic_info s p fi).sets = s.sets ++ [(p, fi)] := by
  simp only [set_file_basic_info, win32_open_file_ok hm ha,
    SetFileInformationByHandle, hm]
  cases hq : m.setOk with
  | false => simp [CloseHandle]
  | true => simp [CloseHandle, updateInfo]

theorem set_sets_open_fail {s : Sys} {p : String} (fi : FILE_BASIC_INFO)
    (h : ∀ m, findFile s.files p = some m →
      accessOf Win32OpenMode.Write &&& m.denyAccess ≠ 0) :
    (set_file_basic_info s p fi).sets = s.sets := by
  cases hm : findFile s.files p with
  | none => simp only [set_file_basic_info, win32_open_file_notFound hm]
  | some m => simp only [set_file_basic_info, win32_open_file_denied hm (h m hm)]

theorem applyBasicInfo_self (i : FILE_BASIC_INFO) :
    applyBasicInfo i (fiOf (tsOf i)) = i := by
  cases i
  simp [applyBasicInfo, fiOf, tsOf, ite_self]

theorem applyBasicInfo_attrs {fi : FILE_BASIC_INFO} (i : FILE_BASIC_INFO)
    (h : fi.FileAttributes = 0) :
    (applyBasicInfo i fi).FileAttributes = i.FileAttributes := by
  simp [applyBasicInfo, h]

theorem set_files_self {s : Sys} {p : String} {m : FileMeta}
    (hm : findFile s.files p = some m) :
    (V0Timestamps.set s p (tsOf m.info)).files = s.files := by
  rw [V0Timestamps.set, set_files, setFilesResult]
  simp only [hm]
  by_cases ha : accessOf Win32OpenMode.Write &&& m.denyAccess ≠ 0
  · rw [if_pos ha]
  · rw [if_neg ha]
    cases hq : m.setOk with
    | false => simp
    | true =>
      rw [if_pos rfl]
      apply updateFile_self_id
      intro m2 hm2
      rw [hm] at hm2
      have hmm : m = m2 := by injection hm2
      subst hmm
      rw [applyBasicInfo_self]

theorem set_files_missing {s : Sys} {p : String} (ts : V0Timestamps)
    (hm : findFile s.files p = none) :
    (V0Timestamps.set s p ts).files = s.files := by
  rw [V0Timestamps.set, set_files, setFilesResult]
  simp only [hm]

-- ## v0 row round trip

theorem v0FromStr_v0Display {ts : V0Timestamps} (h : tsRange ts) :
    v0FromStr (v0Display ts) = some ts := by
  obtain ⟨h1, h2, h3, h4⟩ := h
  rw [v0FromStr, v0Display]
  rw [splitOnChar_append _ _ _ (tab_not_mem_intChars _),
    splitOnChar_append _ _ _ (tab_not_mem_intChars _),
    splitOnChar_append _ _ _ (tab_not_mem_intChars _),
    splitOnChar_nosep _ _ (tab_not_mem_intChars _)]
  simp only [parseI64_intChars h1, parseI64_intChars h2, parseI64_intChars h3,
    parseI64_intChars h4, v0FromFields]

theorem mem_v0Display {ts : V0Timestamps} {c : Char} (hc : c ∈ v0Display ts) :
    c = '\t' ∨ c = '-' ∨ isDigitChar c = true := by
  rw [v0Display] at hc
  simp only [List.mem_append, List.mem_cons] at hc
  rcases hc with h | h | h | h | h | h | h
  · rcases mem_intChars h with h | h
    · exact Or.inr (Or.inl h)
    · exact Or.inr (Or.inr h)
  · exact Or.inl h
  · rcases mem_intChars h with h | h
    · exact Or.inr (Or.inl h)
    · exact Or.inr (Or.inr h)
  · exact Or.inl h
  · rcases mem_intChars h with h | h
    · exact Or.inr (Or.inl h)
    · exact Or.inr (Or.inr h)
  · exact Or.inl h
  · rcases mem_intChars h with h | h
    · exact Or.inr (Or.inl h)
    · exact Or.inr (Or.inr h)

theorem lf_not_mem_v0Display (ts : V0Timestamps) : '\n' ∉ v0Display ts := by
  intro h
  rcases mem_v0Display h with h | h | h
  · exact absurd h (by decide)
  · exact absurd h (by decide)
  · exact absurd h (by decide)

theorem v0Display_getLast_digit (ts : V0Timestamps) :
    ∃ c, (v0Display ts).getLast? = some c ∧ isDigitChar c = true := by
  obtain ⟨c, hc, hd⟩ := intChars_getLast_digit ts.accessed
  refine ⟨c, ?_, hd⟩
  rw [v0Display, List.getLast?_append_cons, List.getLast?_cons,
    List.getLast?_append_cons, List.getLast?_cons, List.getLast?_append_cons,
    List.getLast?_cons, hc]
  simp

-- ## dumpLoop characterization

/-- Line contributed to the dump output by one traversal item, as a
function of the file table. -/
def rowOf (files : List (String × FileMeta)) : WalkEntry → Option (List Char)
  | WalkEntry.error _ => none
  | WalkEntry.ok p => (getResult files p).map (fun ts => p.data ++ '\t' :: v0Display ts)

theorem dumpLoop_spec (es : List WalkEntry) : ∀ s : Sys,
    (dumpLoop s es).1 = es.filterMap (rowOf s.files) ∧
    (dumpLoop s es).2.files = s.files := by
  induction es with
  | nil => intro s; simp [dumpLoop]
  | cons e rest ih =>
    intro s
    cases e with
    | error msg =>
      rw [dumpLoop]
      obtain ⟨ih1, ih2⟩ := ih { s with log := s.log ++ [LogEvent.walkError msg] }
      refine ⟨?_, ih2⟩
      rw [ih1]
      simp [rowOf]
    | ok p =>
      have hg1 := get_fst s p
      have hg2 := (get_snd s p).1
      obtain ⟨ih1, ih2⟩ := ih (V0Timestamps.get s p).2
      rw [hg2] at ih1 ih2
      rw [dumpLoop, hg1]
      cases hg : getResult s.files p with
      | none =>
        rw [hg] at hg1
        have hrow : rowOf s.files (WalkEntry.ok p) = none := by
          rw [rowOf, hg]
          rfl
        refine ⟨?_, ih2⟩
        rw [ih1, List.filterMap_cons, hrow]
      | some ts =>
        rw [hg] at hg1
        have hrow : rowOf s.files (WalkEntry.ok p) =
            some (p.data ++ '\t' :: v0Display ts) := by
          rw [rowOf, hg]
          rfl
        refine ⟨?_, ih2⟩
        rw [List.filterMap_cons, hrow, ← ih1]

theorem dump_lines (s : Sys) (es : List WalkEntry) :
    (dump s es).1 =
      ( HEADER_PREFIX.data ++ intChars 0) :: column_header :: es.filterMap (rowOf s.files) := by
  rw [dump]
  rcases hloop : dumpLoop s es with ⟨ls, s1⟩
  obtain ⟨h1, _⟩ := dumpLoop_spec es s
  rw [hloop] at h1
  simp only at h1
  rw [← h1]
  rfl

theorem dump_files (s : Sys) (es : List WalkEntry) : (dump s es).2.files = s.files := by
  rw [dump]
  rcases hloop : dumpLoop s es with ⟨ls, s1⟩
  obtain ⟨_, h2⟩ := dumpLoop_spec es s
  rw [hloop] at h2
  exact h2

-- ## applyLoop lemmas

theorem applyLoop_cons_none {s : Sys} {line : List Char} {rest : List (List Char)}
    (h : splitOnce '\t' line = none) :
    applyLoop s (line :: rest) = (Except.error AbortKind.missingTab, s) := by
  simp only [applyLoop, h]

theorem applyLoop_cons_badParse {s : Sys} {line pc pl : List Char} {rest : List (List Char)}
    (h : splitOnce '\t' line = some (pc, pl)) (h2 : v0FromStr pl = none) :
    applyLoop s (line :: rest) = (Except.error AbortKind.fieldParseError, s) := by
  simp only [applyLoop, h, h2]

theorem applyLoop_cons_ok {s : Sys} {line pc pl : List Char} {rest : List (List Char)}
    {ts : V0Timestamps}
    (h : splitOnce '\t' line = some (pc, pl)) (h2 : v0FromStr pl = some ts) :
    applyLoop s (line :: rest) = applyLoop (V0Timestamps.set s (String.mk pc) ts) rest := by
  simp only [applyLoop, h, h2]

theorem applyLoop_append_ok : ∀ (a : List (List Char)) (s : Sys) (b : List (List Char)),
    (applyLoop s a).1 = Except.ok () →
    applyLoop s (a ++ b) = applyLoop (applyLoop s a).2 b := by
  intro a
  induction a with
  | nil => intro s b _; rfl
  | cons line rest ih =>
    intro s b h
    rw [List.cons_append]
    cases hsp : splitOnce '\t' line with
    | none =>
      rw [applyLoop_cons_none hsp] at h
      exact Except.noConfusion (h : Except.error AbortKind.missingTab = Except.ok ())
    | some pr =>
      obtain ⟨pc, pl⟩ := pr
      cases hps : v0FromStr pl with
      | none =>
        rw [applyLoop_cons_badParse hsp hps] at h
        exact Except.noConfusion (h : Except.error AbortKind.fieldParseError = Except.ok ())
      | some ts =>
        rw [applyLoop_cons_ok hsp hps] at h
        rw [applyLoop_cons_ok hsp hps, applyLoop_cons_ok hsp hps]
        exact ih _ b h

/-- A data row of the stream that dump itself produced: a tab-free path,
in-range timestamps, and a payload that matches the current table entry
for that path (when there is one). -/
def selfDataRow (files : List (String × FileMeta)) (row : List Char) : Prop :=
  ∃ p ts, row = p.data ++ '\t' :: v0Display ts ∧ '\t' ∉ p.data ∧ tsRange ts ∧
    ∀ m, findFile files p = some m → ts = tsOf m.info

theorem applyLoop_self : ∀ (rows : List (List Char)) (s : Sys),
    (∀ r ∈ rows, selfDataRow s.files r) →
    (applyLoop s rows).1 = Except.ok () ∧ (applyLoop s rows).2.files = s.files := by
  intro rows
  induction rows with
  | nil => intro s _; exact ⟨rfl, rfl⟩
  | cons row rest ih =>
    intro s h
    obtain ⟨p, ts, hrow, htab, hrange, hts⟩ := h row (List.mem_cons_self _ _)
    subst hrow
    rw [applyLoop_cons_ok (splitOnce_append _ _ _ htab) (v0FromStr_v0Display hrange)]
    have hmk : String.mk p.data = p := rfl
    rw [hmk]
    have hfiles : (V0Timestamps.set s p ts).files = s.files := by
      cases hm : findFile s.files p with
      | none => exact set_files_missing ts hm
      | some m =>
        rw [hts m hm]
        exact set_files_self hm
    obtain ⟨ih1, ih2⟩ := ih (V0Timestamps.set s p ts) (by
      rw [hfiles]
      intro r hr
      exact h r (List.mem_cons_of_mem _ hr))
    exact ⟨ih1, by rw [ih2, hfiles]⟩

-- ## dump rows are self rows

theorem getResult_some {files : List (String × FileMeta)} {p : String} {ts : V0Timestamps}
    (h : getResult files p = some ts) :
    ∃ m, findFile files p = some m ∧ ts = tsOf m.info := by
  cases hm : findFile files p with
  | none =>
    simp only [getResult, hm] at h
    exact absurd h (by simp)
  | some m =>
    simp only [getResult, hm] at h
    by_cases ha : accessOf Win32OpenMode.Read &&& m.denyAccess ≠ 0
    · rw [if_pos ha] at h
      exact absurd h (by simp)
    · rw [if_neg ha] at h
      cases hq : m.queryOk with
      | false =>
        rw [hq] at h
        simp at h
      | true =>
        rw [hq] at h
        simp only [if_pos rfl] at h
        have hts : tsOf m.info = ts := by injection h
        exact ⟨m, rfl, hts.symm⟩

theorem rowOf_selfDataRow {files : List (String × FileMeta)} {e : WalkEntry} {r : List Char}
    (hr : rowOf files e = some r)
    (hpaths : ∀ p, e = WalkEntry.ok p → '\t' ∉ p.data)
    (hrange : ∀ pm ∈ files, infoRange pm.2.info) :
    selfDataRow files r := by
  cases e with
  | error m => exact absurd hr (by simp [rowOf])
  | ok p =>
    rw [rowOf] at hr
    cases hg : getResult files p with
    | none => rw [hg] at hr; exact absurd hr (by simp)
    | some ts =>
      rw [hg] at hr
      have hrr : p.data ++ '\t' :: v0Display ts = r := by
        have hsome : some (p.data ++ '\t' :: v0Display ts) = some r := hr
        injection hsome
      obtain ⟨m, hm, hts⟩ := getResult_some hg
      refine ⟨p, ts, hrr.symm, hpaths p rfl, ?_, ?_⟩
      · rw [hts]
        exact hrange (p, m) (findFile_some_mem _ _ _ hm)
      · intro m2 hm2
        rw [hm] at hm2
        have hmm : m = m2 := by injection hm2
        subst hmm
        exact hts

-- ## apply_any prefix stripping

theorem apply_any_unfolded (s : Sys) (tail : List Char) :
    apply_any s ( HEADER_PREFIX.data ++ tail) =
      (match myLines tail with
       | [] => (Except.error AbortKind.missingVersionLine, s)
       | vline :: rest =>
         match parseI32 vline with
         | none => (Except.error AbortKind.badVersionNumber, s)
         | some v =>
           if v = 0 then apply s rest
           else (Except.ok (), { s with log := s.log ++ [LogEvent.unknownVersion v] })) := by
  rw [apply_any]
  rw [if_neg (by rw [List.length_append]; omega)]
  rw [if_neg (by rw [List.take_left]; exact fun h => h rfl)]
  rw [List.drop_left]

-- ## Claim theorems

/-- C2: invoking get does not change what a second get returns; in
particular two successive get calls on the same path return identical
accessed values (and identical results altogether), because the Read-mode
open issues the SetFileTime suppression call before the handle is used. -/
theorem c2_get_access_neutral (s : Sys) (p : String) :
    (V0Timestamps.get ((V0Timestamps.get s p).2) p).1 = (V0Timestamps.get s p).1 ∧
    Option.map (fun ts => ts.accessed) (V0Timestamps.get ((V0Timestamps.get s p).2) p).1 =
      Option.map (fun ts => ts.accessed) (V0Timestamps.get s p).1 := by
  have h : (V0Timestamps.get s p).2.files = s.files := (get_snd s p).1
  have h2 : (V0Timestamps.get ((V0Timestamps.get s p).2) p).1 = (V0Timestamps.get s p).1 := by
    rw [get_fst, get_fst, h]
  exact ⟨h2, by rw [h2]⟩

/-- C3: dump over a directory with no entries (the traversal driver yields
the empty sequence) emits exactly the Version 0 line and the column
header: two lines, zero data rows. -/
theorem c3_dump_empty_tree (s : Sys) :
    (dump s emptyDirTraversal).1 = ["Version 0".data, column_header] ∧
    ((dump s emptyDirTraversal).1).length = 2 := by
  have h : (dump s emptyDirTraversal).1 =
      ( HEADER_PREFIX.data ++ intChars 0) :: column_header :: [] := by
    rw [dump_lines]
    rfl
  rw [h]
  refine ⟨?_, rfl⟩
  rw [show ( HEADER_PREFIX.data ++ intChars 0) = "Version 0".data from by decide]

/-- C7: set builds the basic-file-information record with FileAttributes 0
(the "do not alter attributes" sentinel), so it never changes any file's
attribute bits, touches no file other than the target, and any issued
SetFileInformationByHandle call carries FileAttributes 0. -/
theorem c7_set_preserves_attributes (s : Sys) (p : String) (ts : V0Timestamps) :
    (∀ q, Option.map (fun m => m.info.FileAttributes)
        (findFile (V0Timestamps.set s p ts).files q) =
      Option.map (fun m => m.info.FileAttributes) (findFile s.files q)) ∧
    (∀ q, q ≠ p → findFile (V0Timestamps.set s p ts).files q = findFile s.files q) ∧
    ((V0Timestamps.set s p ts).sets = s.sets ∨
      ∃ fi, (V0Timestamps.set s p ts).sets = s.sets ++ [(p, fi)] ∧ fi.FileAttributes = 0) := by
  have hfiles : (V0Timestamps.set s p ts).files = setFilesResult s.files p (fiOf ts) :=
    set_files s p (fiOf ts)
  refine ⟨?_, ?_, ?_⟩
  · intro q
    rw [hfiles]
    cases hm : findFile s.files p with
    | none => rw [setFilesResult, hm]
    | some m =>
      simp only [setFilesResult, hm]
      by_cases ha : accessOf Win32OpenMode.Write &&& m.denyAccess ≠ 0
      · rw [if_pos ha]
      · rw [if_neg ha]
        cases hq : m.setOk with
        | false => simp
        | true =>
          rw [if_pos rfl]
          by_cases hqp : q = p
          · subst hqp
            rw [findFile_updateFile_self, hm]
            show some (applyBasicInfo m.info (fiOf ts)).FileAttributes =
              some m.info.FileAttributes
            rw [applyBasicInfo_attrs m.info (show (fiOf ts).FileAttributes = 0 from rfl)]
          · rw [findFile_updateFile_other _ _ _ _ hqp]
  · intro q hqp
    rw [hfiles]
    cases hm : findFile s.files p with
    | none => rw [setFilesResult, hm]
    | some m =>
      simp only [setFilesResult, hm]
      by_cases ha : accessOf Win32OpenMode.Write &&& m.denyAccess ≠ 0
      · rw [if_pos ha]
      · rw [if_neg ha]
        cases hq : m.setOk with
        | false => simp
        | true =>
          rw [if_pos rfl, findFile_updateFile_other _ _ _ _ hqp]
  · cases hm : findFile s.files p with
    | none =>
      exact Or.inl (set_sets_open_fail _ (fun m h2 => absurd (hm ▸ h2) (by simp)))
    | some m =>
      by_cases ha : accessOf Win32OpenMode.Write &&& m.denyAccess ≠ 0
      · refine Or.inl (set_sets_open_fail _ (fun m2 h2 => ?_))
        rw [hm] at h2
        have hmm : m = m2 := by injection h2
        subst hmm
        exact ha
      · refine Or.inr ⟨fiOf ts, ?_, rfl⟩
        exact set_sets_open_ok _ hm (by omega)

theorem applyBasicInfo_force {i fi : FILE_BASIC_INFO}
    (h1 : fi.CreationTime ≠ 0 ∧ fi.CreationTime ≠ -1)
    (h2 : fi.LastAccessTime ≠ 0 ∧ fi.LastAccessTime ≠ -1)
    (h3 : fi.LastWriteTime ≠ 0 ∧ fi.LastWriteTime ≠ -1)
    (h4 : fi.ChangeTime ≠ 0 ∧ fi.ChangeTime ≠ -1)
    (hA : fi.FileAttributes = 0) :
    applyBasicInfo i fi =
      { CreationTime := fi.CreationTime, LastAccessTime := fi.LastAccessTime,
        LastWriteTime := fi.LastWriteTime, ChangeTime := fi.ChangeTime,
        FileAttributes := i.FileAttributes } := by
  rw [applyBasicInfo]
  rw [if_neg (fun h => h.elim h1.1 h1.2), if_neg (fun h => h.elim h2.1 h2.2),
    if_neg (fun h => h.elim h3.1 h3.2), if_neg (fun h => h.elim h4.1 h4.2), if_pos hA]

/-- C10: win32_open_file issues the access-time-preserving SetFileTime
call on every successful open, Write (Restore) mode included — the handle
set returns carries the suppression mark — and set then overwrites all
four timestamps, accessed included, through the basic-file-information
write. -/
theorem c10_restore_open_suppresses (s : Sys) (p : String) (ts : V0Timestamps) (m : FileMeta)
    (hm : findFile s.files p = some m)
    (ha : accessOf Win32OpenMode.Write &&& m.denyAccess = 0)
    (hset : m.setOk = true)
    (hc : ts.created ≠ 0 ∧ ts.created ≠ -1)
    (hmo : ts.modified ≠ 0 ∧ ts.modified ≠ -1)
    (hch : ts.changed ≠ 0 ∧ ts.changed ≠ -1)
    (hac : ts.accessed ≠ 0 ∧ ts.accessed ≠ -1) :
    win32_open_file s p Win32OpenMode.Write =
      (some { hpath := p, suppressAccess := true }, s) ∧
    findFile (V0Timestamps.set s p ts).files p =
      some { m with info :=
        { CreationTime := ts.created, LastAccessTime := ts.accessed,
          LastWriteTime := ts.modified, ChangeTime := ts.changed,
          FileAttributes := m.info.FileAttributes } } := by
  refine ⟨win32_open_file_ok hm ha, ?_⟩
  rw [V0Timestamps.set, set_files]
  simp only [setFilesResult, hm]
  rw [if_neg (by omega), if_pos hset, findFile_updateFile_self, hm]
  have hx : applyBasicInfo m.info (fiOf ts) =
      { CreationTime := ts.created, LastAccessTime := ts.accessed,
        LastWriteTime := ts.modified, ChangeTime := ts.changed,
        FileAttributes := m.info.FileAttributes } := by
    rw [applyBasicInfo_force hc hac hmo hch rfl]
    rfl
  simp [hx]

theorem filterMap_ext {α β : Type} (f g : α → Option β) (l : List α)
    (h : ∀ a ∈ l, f a = g a) : l.filterMap f = l.filterMap g := by
  induction l with
  | nil => rfl
  | cons a l ih =>
    rw [List.filterMap_cons, List.filterMap_cons, h a (List.mem_cons_self _ _),
      ih (fun x hx => h x (List.mem_cons_of_mem a hx))]

/-- C9: when the Read-mode open is denied (or the path is absent, or the
timestamp query fails), get returns none after logging the path and the
OS error code, the entry contributes no line to the dump output, and the
remaining entries are dumped as if it were not there. -/
theorem c9_get_failure_skips (s : Sys) (p : String) (es1 es2 : List WalkEntry)
    (h : match findFile s.files p with
         | none => True
         | some m => accessOf Win32OpenMode.Read &&& m.denyAccess ≠ 0 ∨ m.queryOk = false) :
    (V0Timestamps.get s p).1 = none ∧
    (∃ c, (V0Timestamps.get s p).2.log = s.log ++ [LogEvent.openError p c] ∨
          (V0Timestamps.get s p).2.log = s.log ++ [LogEvent.queryError p c]) ∧
    (dump s (es1 ++ WalkEntry.ok p :: es2)).1 = (dump s (es1 ++ es2)).1 := by
  have hmain : (V0Timestamps.get s p).1 = none ∧
      (∃ c, (V0Timestamps.get s p).2.log = s.log ++ [LogEvent.openError p c] ∨
            (V0Timestamps.get s p).2.log = s.log ++ [LogEvent.queryError p c]) := by
    cases hm : findFile s.files p with
    | none =>
      have heq : V0Timestamps.get s p =
          (none, { s with lastError := ERROR_FILE_NOT_FOUND,
                          log := s.log ++ [LogEvent.openError p ERROR_FILE_NOT_FOUND] }) := by
        simp only [V0Timestamps.get, get_file_basic_info, win32_open_file_notFound hm]
      rw [heq]
      exact ⟨rfl, ERROR_FILE_NOT_FOUND, Or.inl rfl⟩
    | some m =>
      rw [hm] at h
      by_cases ha : accessOf Win32OpenMode.Read &&& m.denyAccess ≠ 0
      · have heq : V0Timestamps.get s p =
            (none, { s with lastError := m.errCode,
                            log := s.log ++ [LogEvent.openError p m.errCode] }) := by
          simp only [V0Timestamps.get, get_file_basic_info, win32_open_file_denied hm ha]
        rw [heq]
        exact ⟨rfl, m.errCode, Or.inl rfl⟩
      · have hq : m.queryOk = false := h.resolve_left ha
        have heq : V0Timestamps.get s p =
            (none, { s with lastError := m.errCode,
                            log := s.log ++ [LogEvent.queryError p m.errCode] }) := by
          simp only [V0Timestamps.get, get_file_basic_info,
            @win32_open_file_ok s p m Win32OpenMode.Read hm (by omega),
            GetFileInformationByHandleEx, hm, hq]
          simp [CloseHandle]
        rw [heq]
        exact ⟨rfl, m.errCode, Or.inr rfl⟩
  refine ⟨hmain.1, hmain.2, ?_⟩
  have hrow : rowOf s.files (WalkEntry.ok p) = none := by
    rw [rowOf, ← get_fst, hmain.1]
    rfl
  rw [dump_lines, dump_lines, List.filterMap_append, List.filterMap_append,
    List.filterMap_cons, hrow]

/-- C8: the version-0 serialization of dump is exactly: the literal
prefix "Version " followed by the decimal version 0, then the column
header line, then one row per captured entry consisting of the path, a
tab, and the four timestamps as decimal signed 64-bit integers in the
fixed order created, modified, changed, accessed. -/
theorem c8_dump_layout (s : Sys) (entries : List WalkEntry) :
    (dump s entries).1 =
      ("Version ".data ++ intChars 0) ::
        ("Path\tCreated\tModified\tChanged\tAccessed").data ::
        entries.filterMap (fun e =>
          match e with
          | WalkEntry.error _ => none
          | WalkEntry.ok p =>
            Option.map (fun ts =>
                p.data ++ '\t' ::
                  (intChars ts.created ++ '\t' :: (intChars ts.modified ++ '\t' ::
                    (intChars ts.changed ++ '\t' :: intChars ts.accessed))))
              (V0Timestamps.get s p).1) := by
  rw [dump_lines]
  have h1 : HEADER_PREFIX.data = "Version ".data := rfl
  have h2 : column_header = ("Path\tCreated\tModified\tChanged\tAccessed").data := by decide
  rw [h1, h2]
  congr 2
  apply filterMap_ext
  intro e he
  cases e with
  | error msg => rfl
  | ok p =>
    rw [rowOf, ← get_fst]
    rfl

/-- C5: apply validates the stream before restoring anything: an input
whose first bytes are not the literal "Version " prefix aborts with the
state untouched, and a recognized version 0 whose second line differs
from the column header aborts with AbortKind.headerMismatch before any
set call — in both cases the returned state is exactly the input state,
so the sets trace is unchanged. -/
theorem c5_apply_validates_before_set (s : Sys) :
    (∀ input : List Char, input.take HEADER_PREFIX.data.length ≠ HEADER_PREFIX.data →
      (∃ e, (apply_any s input).1 = Except.error e) ∧ (apply_any s input).2 = s) ∧
    (∀ (hdr rest : List Char), '\n' ∉ hdr → stripCr hdr = hdr → hdr ≠ column_header →
      (apply_any s ( HEADER_PREFIX.data ++ ('0' :: '\n' :: (hdr ++ '\n' :: rest)))).1 =
        Except.error AbortKind.headerMismatch ∧
      (apply_any s ( HEADER_PREFIX.data ++ ('0' :: '\n' :: (hdr ++ '\n' :: rest)))).2 = s) := by
  constructor
  · intro input htake
    rw [apply_any]
    by_cases hlen : input.length < HEADER_PREFIX.data.length
    · rw [if_pos hlen]
      exact ⟨⟨AbortKind.streamTooShort, rfl⟩, rfl⟩
    · rw [if_neg hlen, if_pos htake]
      exact ⟨⟨AbortKind.badMagic, rfl⟩, rfl⟩
  · intro hdr rest hlf hcr hne
    have hml : myLines ('0' :: '\n' :: (hdr ++ '\n' :: rest)) =
        ['0'] :: hdr :: myLines rest := by
      rw [show ('0' :: '\n' :: (hdr ++ '\n' :: rest)) =
        ['0'] ++ '\n' :: (hdr ++ '\n' :: rest) from rfl]
      rw [myLines, myLinesAux_line _ _ _ (by decide)]
      rw [show myLinesAux [] (hdr ++ '\n' :: rest) = myLines (hdr ++ '\n' :: rest) from rfl]
      rw [myLines, myLinesAux_line _ _ _ hlf]
      rw [show myLinesAux [] rest = myLines rest from rfl]
      rw [show stripCr (([] : List Char).reverse ++ ['0']) = ['0'] from by decide]
      rw [show (([] : List Char).reverse ++ hdr) = hdr from by simp, hcr]
    rw [apply_any_unfolded]
    simp only [hml]
    rw [show parseI32 ['0'] = some (0 : Int) from by decide]
    simp only
    rw [if_pos trivial, apply, if_neg hne]
    exact ⟨rfl, rfl⟩

/-- C4: an apply stream with the correct "Version " prefix but a
recognized-format integer other than 0 logs the unknown version and
performs no restoration at all for the entire remainder of the stream,
whatever it contains, while reporting success. -/
theorem c4_unknown_version_noop (s : Sys) (v : Int) (rest : List Char)
    (hv : v ≠ 0) (hr : i32R v) :
    (apply_any s ( HEADER_PREFIX.data ++ (intChars v ++ '\n' :: rest))).1 = Except.ok () ∧
    (apply_any s ( HEADER_PREFIX.data ++ (intChars v ++ '\n' :: rest))).2.sets = s.sets ∧
    (apply_any s ( HEADER_PREFIX.data ++ (intChars v ++ '\n' :: rest))).2.files = s.files ∧
    (apply_any s ( HEADER_PREFIX.data ++ (intChars v ++ '\n' :: rest))).2.log =
      s.log ++ [LogEvent.unknownVersion v] := by
  have hml : myLines (intChars v ++ '\n' :: rest) = intChars v :: myLines rest := by
    rw [myLines, myLinesAux_line _ _ _ (lf_not_mem_intChars v)]
    rw [show myLinesAux [] rest = myLines rest from rfl]
    rw [List.reverse_nil, List.nil_append]
    obtain ⟨c, hc, hd⟩ := intChars_getLast_digit v
    rw [stripCr_of_getLast_digit hc hd]
  rw [apply_any_unfolded]
  simp only [hml]
  rw [parseI32_intChars hr]
  simp only
  rw [if_neg hv]
  exact ⟨rfl, rfl, rfl, rfl⟩

/-- Per-line decode of a version-0 data line: split at the first tab,
then parse the payload as a V0Timestamps row. -/
def v0LineParse (line : List Char) : Option (List Char × V0Timestamps) :=
  (splitOnce '\t' line).bind (fun pr => (v0FromStr pr.2).map (fun ts => (pr.1, ts)))

theorem v0FromStr_some {pl : List Char} {ts : V0Timestamps}
    (h : v0FromStr pl = some ts) :
    ∃ a b c d, splitOnChar '\t' pl = [a, b, c, d] ∧
      parseI64 a = some ts.created ∧ parseI64 b = some ts.modified ∧
      parseI64 c = some ts.changed ∧ parseI64 d = some ts.accessed := by
  rw [v0FromStr] at h
  rcases hsp : splitOnChar '\t' pl with _ | ⟨a, _ | ⟨b, _ | ⟨c, _ | ⟨d, _ | ⟨e, l5⟩⟩⟩⟩⟩
  · rw [hsp] at h
    exact Option.noConfusion (h : (none : Option V0Timestamps) = some ts)
  · rw [hsp] at h
    exact Option.noConfusion (h : (none : Option V0Timestamps) = some ts)
  · rw [hsp] at h
    exact Option.noConfusion (h : (none : Option V0Timestamps) = some ts)
  · rw [hsp] at h
    exact Option.noConfusion (h : (none : Option V0Timestamps) = some ts)
  · rw [hsp] at h
    have h4 : v0FromFields (parseI64 a) (parseI64 b) (parseI64 c) (parseI64 d) =
        some ts := h
    clear h
    rcases hpa : parseI64 a with _ | x1
    · rw [hpa] at h4
      exact Option.noConfusion (h4 : (none : Option V0Timestamps) = some ts)
    rw [hpa] at h4
    rcases hpb : parseI64 b with _ | x2
    · rw [hpb] at h4
      exact Option.noConfusion (h4 : (none : Option V0Timestamps) = some ts)
    rw [hpb] at h4
    rcases hpc : parseI64 c with _ | x3
    · rw [hpc] at h4
      exact Option.noConfusion (h4 : (none : Option V0Timestamps) = some ts)
    rw [hpc] at h4
    rcases hpd : parseI64 d with _ | x4
    · rw [hpd] at h4
      exact Option.noConfusion (h4 : (none : Option V0Timestamps) = some ts)
    rw [hpd] at h4
    have hts : ({ created := x1, modified := x2, changed := x3, accessed := x4 } : V0Timestamps) = ts := by
      have hinj : some ({ created := x1, modified := x2, changed := x3, accessed := x4 } : V0Timestamps) = some ts := h4
      injection hinj
    subst hts
    exact ⟨a, b, c, d, rfl, hpa, hpb, hpc, hpd⟩
  · rw [hsp] at h
    exact Option.noConfusion (h : (none : Option V0Timestamps) = some ts)

/-- C6: a version-0 data line is split at the first tab into path and
payload and the payload must be exactly four tab-separated i64 values;
the first line that fails this aborts the whole remaining run (missing
tab or field parse failure) with the state exactly as it was after the
lines already processed, which therefore remain applied. -/
theorem c6_parse_failure_aborts :
    (∀ (s : Sys) (good : List (List Char)) (bad : List Char) (rest : List (List Char)),
      (applyLoop s good).1 = Except.ok () →
      v0LineParse bad = none →
      ∃ e, applyLoop s (good ++ bad :: rest) = (Except.error e, (applyLoop s good).2) ∧
        (e = AbortKind.missingTab ∨ e = AbortKind.fieldParseError)) ∧
    (∀ (line pc pl : List Char) (ts : V0Timestamps),
      v0LineParse line = some (pc, ts) → splitOnce '\t' line = some (pc, pl) →
      line = pc ++ '\t' :: pl ∧ '\t' ∉ pc ∧
      ∃ a b c d, splitOnChar '\t' pl = [a, b, c, d] ∧
        pl = a ++ '\t' :: (b ++ '\t' :: (c ++ '\t' :: d)) ∧
        parseI64 a = some ts.created ∧ parseI64 b = some ts.modified ∧
        parseI64 c = some ts.changed ∧ parseI64 d = some ts.accessed) := by
  constructor
  · intro s good bad rest hgood hbad
    rw [applyLoop_append_ok good s (bad :: rest) hgood]
    cases hsp : splitOnce '\t' bad with
    | none =>
      exact ⟨AbortKind.missingTab, applyLoop_cons_none hsp, Or.inl rfl⟩
    | some pr =>
      obtain ⟨pc, pl⟩ := pr
      have hbad2 : (v0FromStr pl).map (fun t => (pc, t)) = none := by
        rw [v0LineParse, hsp] at hbad
        exact hbad
      cases hps : v0FromStr pl with
      | none =>
        exact ⟨AbortKind.fieldParseError, applyLoop_cons_badParse hsp hps, Or.inr rfl⟩
      | some ts =>
        rw [hps] at hbad2
        exact absurd (hbad2 : some (pc, ts) = none) (by simp)
  · intro line pc pl ts hlp hsp
    obtain ⟨hline, htab⟩ := splitOnce_eq_some '\t' line pc pl hsp
    have hlp2 : (v0FromStr pl).map (fun t => (pc, t)) = some (pc, ts) := by
      rw [v0LineParse, hsp] at hlp
      exact hlp
    have hps : v0FromStr pl = some ts := by
      cases hps : v0FromStr pl with
      | none =>
        rw [hps] at hlp2
        exact absurd (hlp2 : (none : Option (List Char × V0Timestamps)) = some (pc, ts))
          (by simp)
      | some ts2 =>
        rw [hps] at hlp2
        have hpair : (pc, ts2) = (pc, ts) := by
          have hsome : some (pc, ts2) = some (pc, ts) := hlp2
          injection hsome
        have hts : ts2 = ts := by injection hpair
        exact congrArg some hts
    obtain ⟨a, b, c, d, hsplit, hpa, hpb, hpc2, hpd⟩ := v0FromStr_some hps
    refine ⟨hline, htab, a, b, c, d, hsplit, ?_, hpa, hpb, hpc2, hpd⟩
    have hj := joinSep_splitOnChar '\t' pl
    rw [hsplit] at hj
    rw [← hj]
    rfl

/-- C1: dump followed by apply of its own output on an otherwise
untouched tree restores the state: apply_any completes normally and
every file's metadata — in particular all four timestamp fields of every
successfully captured file — is bit-identical to its pre-dump value
(the file table is unchanged). Paths are assumed to be valid Win32 paths
(no tab or line feed) and timestamps to lie in the i64 range, as they do
on the real system. -/
theorem c1_dump_apply_round_trip (s : Sys) (entries : List WalkEntry)
    (hpaths : ∀ p, WalkEntry.ok p ∈ entries → '\n' ∉ p.data ∧ '\t' ∉ p.data)
    (hrange : ∀ pm ∈ s.files, infoRange pm.2.info) :
    (apply_any (dump s entries).2 (render (dump s entries).1)).1 = Except.ok () ∧
    (apply_any (dump s entries).2 (render (dump s entries).1)).2.files = s.files := by
  have hs1 : (dump s entries).2.files = s.files := dump_files s entries
  have hlines := dump_lines s entries
  have hrowshape : ∀ r ∈ entries.filterMap (rowOf s.files),
      ∃ p ts, r = p.data ++ '\t' :: v0Display ts ∧ WalkEntry.ok p ∈ entries ∧
        getResult s.files p = some ts := by
    intro r hr
    obtain ⟨e, he, hre⟩ := List.mem_filterMap.mp hr
    cases e with
    | error msg => exact absurd hre (by simp [rowOf])
    | ok p =>
      rw [rowOf] at hre
      cases hg : getResult s.files p with
      | none =>
        rw [hg] at hre
        exact Option.noConfusion (hre : (none : Option (List Char)) = some r)
      | some ts =>
        rw [hg] at hre
        have hsome : some (p.data ++ '\t' :: v0Display ts) = some r := hre
        have hr2 : p.data ++ '\t' :: v0Display ts = r := by injection hsome
        exact ⟨p, ts, hr2.symm, he, hg⟩
  have hconds : ∀ l ∈ (column_header :: entries.filterMap (rowOf s.files)),
      '\n' ∉ l ∧ stripCr l = l := by
    intro l hl
    rcases List.mem_cons.mp hl with h | h
    · subst h
      exact ⟨by decide, by decide⟩
    · obtain ⟨p, ts, hlr, hmem, hg⟩ := hrowshape l h
      subst hlr
      constructor
      · intro hm
        rcases List.mem_append.mp hm with h1 | h1
        · exact (hpaths p hmem).1 h1
        · rcases List.mem_cons.mp h1 with h1 | h1
          · exact absurd h1 (by decide)
          · exact lf_not_mem_v0Display ts h1
      · obtain ⟨c, hc, hd⟩ := v0Display_getLast_digit ts
        refine stripCr_of_getLast_digit ?_ hd
        have hne : v0Display ts ≠ [] := by
          intro h0
          rw [h0] at hc
          exact Option.noConfusion hc
        rw [List.getLast?_append_of_ne_nil _ (by simp)]
        rw [show ('\t' :: v0Display ts) = ['\t'] ++ v0Display ts from rfl,
          List.getLast?_append_of_ne_nil _ hne, hc]
  have hrender : render (dump s entries).1 =
      HEADER_PREFIX.data ++
        ('0' :: '\n' :: render (column_header :: entries.filterMap (rowOf s.files))) := by
    rw [hlines, render]
    rw [show intChars (0 : Int) = ['0'] from by decide]
    rw [List.append_assoc]
    rfl
  have hml : myLines
      ('0' :: '\n' :: render (column_header :: entries.filterMap (rowOf s.files))) =
      ['0'] :: column_header :: entries.filterMap (rowOf s.files) := by
    rw [show ('0' :: '\n' :: render (column_header :: entries.filterMap (rowOf s.files))) =
      render (['0'] :: column_header :: entries.filterMap (rowOf s.files)) from rfl]
    apply myLines_render
    intro l hl
    rcases List.mem_cons.mp hl with h | h
    · subst h
      exact ⟨by decide, by decide⟩
    · exact hconds l h
  have hmain : apply_any (dump s entries).2 (render (dump s entries).1) =
      applyLoop (dump s entries).2 (entries.filterMap (rowOf s.files)) := by
    rw [hrender, apply_any_unfolded]
    simp only [hml]
    rw [show parseI32 ['0'] = some (0 : Int) from by decide]
    simp only
    rw [if_pos trivial, apply, if_pos rfl]
  have hself : ∀ r ∈ entries.filterMap (rowOf s.files),
      selfDataRow (dump s entries).2.files r := by
    rw [hs1]
    intro r hr
    obtain ⟨e, he, hre⟩ := List.mem_filterMap.mp hr
    refine rowOf_selfDataRow hre ?_ hrange
    intro p hp
    subst hp
    exact (hpaths p he).2
  obtain ⟨hok, hfiles⟩ := applyLoop_self _ _ hself
  rw [hmain]
  exact ⟨hok, by rw [hfiles, hs1]⟩

instance {e a : Type} [DecidableEq e] [DecidableEq a] : DecidableEq (Except e a)
  | Except.error x, Except.error y =>
    if h : x = y then isTrue (by rw [h]) else isFalse (fun hc => h (by injection hc))
  | Except.error _, Except.ok _ => isFalse (fun hc => Except.noConfusion hc)
  | Except.ok _, Except.error _ => isFalse (fun hc => Except.noConfusion hc)
  | Except.ok x, Except.ok y =>
    if h : x = y then isTrue (by rw [h]) else isFalse (fun hc => h (by injection hc))

-- ## Concrete example system used by the witnesses

def exInfo : FILE_BASIC_INFO :=
  { CreationTime := 100, LastAccessTime := 400, LastWriteTime := 200, ChangeTime := 300,
    FileAttributes := 33 }

def exMeta : FileMeta :=
  { info := exInfo, denyAccess := 0, queryOk := true, setOk := true, errCode := 5 }

def exDenyMeta : FileMeta :=
  { info := exInfo, denyAccess := FILE_READ_ATTRIBUTES, queryOk := true, setOk := true,
    errCode := 5 }

def exSys : Sys :=
  { files := [("a", exMeta)], clock := 999, lastError := 0, log := [], sets := [] }

def exSys2 : Sys :=
  { files := [("a", exMeta), ("b", exDenyMeta)], clock := 999, lastError := 0, log := [],
    sets := [] }

-- ## Witnesses

theorem c1_witness :
    (apply_any (dump exSys [WalkEntry.ok "a"]).2
      (render (dump exSys [WalkEntry.ok "a"]).1)).1 = Except.ok () ∧
    (apply_any (dump exSys [WalkEntry.ok "a"]).2
      (render (dump exSys [WalkEntry.ok "a"]).1)).2.files = exSys.files :=
  c1_dump_apply_round_trip exSys [WalkEntry.ok "a"]
    (fun p hp => by
      have hp2 : WalkEntry.ok p = WalkEntry.ok "a" := List.mem_singleton.mp hp
      have hpa : p = "a" := by injection hp2
      subst hpa
      exact ⟨by decide, by decide⟩)
    (by decide)

theorem c4_witness :
    (apply_any exSys ( HEADER_PREFIX.data ++ (intChars 7 ++ '\n' :: "x\t1".data))).1 =
      Except.ok () ∧
    (apply_any exSys ( HEADER_PREFIX.data ++ (intChars 7 ++ '\n' :: "x\t1".data))).2.sets =
      exSys.sets ∧
    (apply_any exSys ( HEADER_PREFIX.data ++ (intChars 7 ++ '\n' :: "x\t1".data))).2.files =
      exSys.files ∧
    (apply_any exSys ( HEADER_PREFIX.data ++ (intChars 7 ++ '\n' :: "x\t1".data))).2.log =
      exSys.log ++ [LogEvent.unknownVersion 7] :=
  c4_unknown_version_noop exSys 7 ("x\t1".data) (by decide) (by decide)

theorem c5_witness :
    ((∃ e, (apply_any exSys "Nonsense".data).1 = Except.error e) ∧
      (apply_any exSys "Nonsense".data).2 = exSys) ∧
    ((apply_any exSys
        ( HEADER_PREFIX.data ++ ('0' :: '\n' :: ("bad".data ++ '\n' :: [])))).1 =
      Except.error AbortKind.headerMismatch ∧
     (apply_any exSys
        ( HEADER_PREFIX.data ++ ('0' :: '\n' :: ("bad".data ++ '\n' :: [])))).2 = exSys) :=
  ⟨(c5_apply_validates_before_set exSys).1 ("Nonsense".data) (by decide),
   (c5_apply_validates_before_set exSys).2 ("bad".data) [] (by decide) (by decide)
     (by decide)⟩

theorem c6_witness :
    (∃ e, applyLoop exSys (["a\t1\t2\t3\t4".data] ++ "nodata".data :: []) =
        (Except.error e, (applyLoop exSys ["a\t1\t2\t3\t4".data]).2) ∧
      (e = AbortKind.missingTab ∨ e = AbortKind.fieldParseError)) ∧
    ("p\t1\t2\t3\t4".data = "p".data ++ '\t' :: "1\t2\t3\t4".data ∧ '\t' ∉ "p".data ∧
      ∃ a b c d, splitOnChar '\t' ("1\t2\t3\t4".data) = [a, b, c, d] ∧
        "1\t2\t3\t4".data = a ++ '\t' :: (b ++ '\t' :: (c ++ '\t' :: d)) ∧
        parseI64 a = some 1 ∧ parseI64 b = some 2 ∧
        parseI64 c = some 3 ∧ parseI64 d = some 4) :=
  ⟨c6_parse_failure_aborts.1 exSys ["a\t1\t2\t3\t4".data] ("nodata".data) []
      (by decide) (by decide),
   c6_parse_failure_aborts.2 ("p\t1\t2\t3\t4".data) ("p".data) ("1\t2\t3\t4".data)
      ⟨1, 2, 3, 4⟩ (by decide) (by decide)⟩

theorem c7_witness :
    Option.map (fun m => m.info.FileAttributes)
        (findFile (V0Timestamps.set exSys2 "a" ⟨1, 2, 3, 4⟩).files "a") =
      Option.map (fun m => m.info.FileAttributes) (findFile exSys2.files "a") ∧
    findFile (V0Timestamps.set exSys2 "a" ⟨1, 2, 3, 4⟩).files "b" =
      findFile exSys2.files "b" ∧
    ((V0Timestamps.set exSys2 "a" ⟨1, 2, 3, 4⟩).sets = exSys2.sets ∨
      ∃ fi, (V0Timestamps.set exSys2 "a" ⟨1, 2, 3, 4⟩).sets = exSys2.sets ++ [("a", fi)] ∧
        fi.FileAttributes = 0) :=
  ⟨(c7_set_preserves_attributes exSys2 "a" ⟨1, 2, 3, 4⟩).1 "a",
   (c7_set_preserves_attributes exSys2 "a" ⟨1, 2, 3, 4⟩).2.1 "b" (by decide),
   (c7_set_preserves_attributes exSys2 "a" ⟨1, 2, 3, 4⟩).2.2⟩

theorem c9_witness :
    (V0Timestamps.get exSys2 "b").1 = none ∧
    (∃ c, (V0Timestamps.get exSys2 "b").2.log = exSys2.log ++ [LogEvent.openError "b" c] ∨
          (V0Timestamps.get exSys2 "b").2.log =
            exSys2.log ++ [LogEvent.queryError "b" c]) ∧
    (dump exSys2 ([WalkEntry.ok "a"] ++ WalkEntry.ok "b" :: [])).1 =
      (dump exSys2 ([WalkEntry.ok "a"] ++ [])).1 :=
  c9_get_failure_skips exSys2 "b" [WalkEntry.ok "a"] [] (by
    show accessOf Win32OpenMode.Read &&& exDenyMeta.denyAccess ≠ 0 ∨
      exDenyMeta.queryOk = false
    exact Or.inl (by decide))

theorem c10_witness :
    win32_open_file exSys "a" Win32OpenMode.Write =
      (some { hpath := "a", suppressAccess := true }, exSys) ∧
    findFile (V0Timestamps.set exSys "a" ⟨11, 22, 33, 44⟩).files "a" =
      some { exMeta with info :=
        { CreationTime := 11, LastAccessTime := 44, LastWriteTime := 22,
          ChangeTime := 33, FileAttributes := exMeta.info.FileAttributes } } :=
  c10_restore_open_suppresses exSys "a" ⟨11, 22, 33, 44⟩ exMeta (by decide) (by decide)
    (by decide) ⟨by decide, by decide⟩ ⟨by decide, by decide⟩ ⟨by decide, by decide⟩
    ⟨by decide, by decide⟩

end W32
